import Mathlib

/-!
# Verification of the Bespin CSS syntax-highlighter rule table

Shallow embedding of `src/plugins/supported/stylesheet.js`: the declarative
rule table `states` (two states, `start` and `comment`, ten anchored regex
rules in all) together with the generic `StandardSyntax` tokenizer engine
the table is handed to (`new StandardSyntax(states)`).  The engine itself
lives in `syntax_manager:controllers/standardsyntax` and is not part of
this repository sample, so its scanning loop, fallback and validation
behaviour are modelled from the specification; the regexes and the table
are translated directly from the source.

Each JavaScript regex is embedded as a function `List Char → Option Nat`
returning the length of the (anchored) match at the current position, or
`none` when the pattern does not match there.  The translations account
for greedy/lazy repetition and the lookahead assertions of the source
patterns; each is annotated with the source regex it embeds.
-/

namespace Bespin

/-- Length of the longest prefix of `cs` whose characters all satisfy `p`
(the semantics of a greedy character-class star `[..]*` anchored here). -/
def countLeading (p : Char → Bool) : List Char → Nat
  | [] => 0
  | c :: cs => if p c then countLeading p cs + 1 else 0

/-- JavaScript `\w`: ASCII letters, digits and underscore. -/
def isWordChar (c : Char) : Bool :=
  c.isAlpha || c.isDigit || c == '_'

/-- JavaScript line terminators, the characters `.` does not match. -/
def isLineTerminator (c : Char) : Bool :=
  c == '\n' || c == '\r' || c.toNat == 0x2028 || c.toNat == 0x2029

/-- `start` rule 1 (tags): `/^([\w]+)(?![a-zA-Z0-9_:])([,|{]*?)(?!;)(?!(;|%))/`.
`[\w]+` greedily takes the maximal run of word characters; the negative
lookahead `(?![a-zA-Z0-9_:])` fails on every shorter (backtracked) run
because the following character would again be a word character, so the
whole rule fails exactly when the character after the maximal run is `:`.
The lazy group `([,|{]*?)` first tries the empty match; the lookaheads
`(?!;)(?!(;|%))` then inspect the character after the run, and when they
fail (on `;` or `%`) the lazy group cannot expand since neither `;` nor
`%` is in `[,|{]`.  Net effect: match the maximal word run (length ≥ 1)
iff the character following it is none of `:`, `;`, `%`. -/
def regexKeyword (cs : List Char) : Option Nat :=
  let k := countLeading isWordChar cs
  if k = 0 then none
  else
    match cs.drop k with
    | [] => some k
    | c :: _ => if c = ':' ∨ c = ';' ∨ c = '%' then none else some k

/-- `start` rule 2 (id): `/^#([a-zA-Z]*)(?=.*{*?)/`.  The lookahead
`(?=.*{*?)` always succeeds (both parts may match the empty string), so
the rule matches `#` followed by the maximal run of ASCII letters. -/
def regexId (cs : List Char) : Option Nat :=
  match cs with
  | a :: rest => if a = '#' then some (1 + countLeading Char.isAlpha rest) else none
  | [] => none

/-- `start` rule 3 (classes): `/^\.([a-zA-Z]*)(?=.*{*?)/`, same shape as
the id rule with `.` in place of `#`. -/
def regexClassSel (cs : List Char) : Option Nat :=
  match cs with
  | a :: rest => if a = '.' then some (1 + countLeading Char.isAlpha rest) else none
  | [] => none

/-- `start` rule 4 (style names): `/^([a-zA-Z-]*)(?:\:)/`.  The greedy
star takes the maximal run of letters/hyphens; backtracking to a shorter
run cannot help because the next character would be a letter or hyphen,
not `:`.  So the rule matches iff the character right after the maximal
run is `:`, consuming the run plus the colon. -/
def regexDirective (cs : List Char) : Option Nat :=
  let r := countLeading (fun c => c.isAlpha || c == '-') cs
  match cs.drop r with
  | c :: _ => if c = ':' then some (r + 1) else none
  | [] => none

/-- `start` rule 5: `/^\/\/.*/` — `//` followed by the greedy `.*`, which
takes every remaining character up to a line terminator. -/
def regexLineComment (cs : List Char) : Option Nat :=
  match cs with
  | a :: b :: rest =>
    if a = '/' ∧ b = '/' then some (2 + countLeading (fun c => !isLineTerminator c) rest)
    else none
  | _ => none

/-- `start` rule 6: `/^\/\*/` — the two characters `/*`. -/
def regexCommentOpen (cs : List Char) : Option Nat :=
  match cs with
  | a :: b :: _ => if a = '/' ∧ b = '*' then some 2 else none
  | _ => none

/-- `start` rule 7 (catch-all): `/^./` — any single character other than a
line terminator. -/
def regexAnyChar (cs : List Char) : Option Nat :=
  match cs with
  | c :: _ => if isLineTerminator c then none else some 1
  | [] => none

/-- `comment` rule 1: `/^[^*\/]+/` — maximal nonempty run of characters
other than `*` and `/` (a negated class, so it does match newlines). -/
def regexCommentBody (cs : List Char) : Option Nat :=
  let n := countLeading (fun c => !(c == '*') && !(c == '/')) cs
  if n = 0 then none else some n

/-- `comment` rule 2: `/^\*\//` — the two characters `*/`. -/
def regexCommentClose (cs : List Char) : Option Nat :=
  match cs with
  | a :: b :: _ => if a = '*' ∧ b = '/' then some 2 else none
  | _ => none

/-- `comment` rule 3: `/^[*\/]/` — a single `*` or `/`. -/
def regexStarSlash (cs : List Char) : Option Nat :=
  match cs with
  | c :: _ => if c = '*' ∨ c = '/' then some 1 else none
  | [] => none

/-- A rule of the table: `regex`, `tag`, and the optional `then` state
(named `thenState` here since `then` is reserved in Lean). -/
structure Rule where
  regex : List Char → Option Nat
  tag : String
  thenState : Option String

/-- The `start` state's rule list, in declared order (stylesheet.js
lines 60–94). -/
def startRules : List Rule :=
  [ ⟨regexKeyword, "keyword", none⟩,
    ⟨regexId, "error", none⟩,
    ⟨regexClassSel, "string", none⟩,
    ⟨regexDirective, "directive", none⟩,
    ⟨regexLineComment, "comment", none⟩,
    ⟨regexCommentOpen, "comment", some "comment"⟩,
    ⟨regexAnyChar, "plain", none⟩ ]

/-- The `comment` state's rule list, in declared order (stylesheet.js
lines 96–110). -/
def commentRules : List Rule :=
  [ ⟨regexCommentBody, "comment", none⟩,
    ⟨regexCommentClose, "comment", some "start"⟩,
    ⟨regexStarSlash, "comment", none⟩ ]

/-- The rule table `states` of stylesheet.js. -/
def states : List (String × List Rule) :=
  [ ("start", startRules), ("comment", commentRules) ]

/-- An emitted token: the matched span and the rule's tag. -/
structure Token where
  value : List Char
  tag : String
deriving Repr, DecidableEq

/-- Modelled from the spec: rule lookup of the `StandardSyntax` engine
(`syntax_manager:controllers/standardsyntax`, not in this sample) — the
rule list of the named state, empty when the state is undefined. -/
def lookupState (tbl : List (String × List Rule)) (name : String) : List Rule :=
  match tbl.find? (fun p => p.1 == name) with
  | some p => p.2
  | none => []

/-- Modelled from the spec: first-match rule dispatch of the
`StandardSyntax` engine — rules are tried strictly in declared order and
the first whose pattern matches at the current position supplies the
match length, tag and optional next state. -/
def matchFirst (rules : List Rule) (cs : List Char) :
    Option (Nat × String × Option String) :=
  match rules with
  | [] => none
  | r :: rest =>
    match r.regex cs with
    | some n => some (n, r.tag, r.thenState)
    | none => matchFirst rest cs

/-- Modelled from the spec: the scanning loop of the `StandardSyntax`
engine, fuel-indexed for structural recursion.  At each position the
first matching rule of the active state is applied (its span emitted, its
`then` transition taken); a zero-length match is forced to advance one
character (the empty-match guard); when no rule matches, one character is
consumed and emitted as a `plain`-tagged fallback token.  One unit of
fuel is spent per emitted token, and since every step consumes at least
one character, fuel equal to the line length always suffices. -/
def tokenizeFuel (tbl : List (String × List Rule)) :
    Nat → String → List Char → List Token × String
  | _, state, [] => ([], state)
  | 0, state, _ => ([], state)
  | fuel + 1, state, c :: rest =>
    match matchFirst (lookupState tbl state) (c :: rest) with
    | some (n, tag, nxt) =>
      let len := max n 1
      let r := tokenizeFuel tbl fuel (nxt.getD state) ((c :: rest).drop len)
      (⟨(c :: rest).take len, tag⟩ :: r.1, r.2)
    | none =>
      let r := tokenizeFuel tbl fuel state rest
      (⟨[c], "plain"⟩ :: r.1, r.2)

/-- Modelled from the spec: the engine contract
`tokenize(line, start_state) -> (tokens, end_state)`. -/
def tokenize (tbl : List (String × List Rule)) (line : List Char)
    (startState : String) : List Token × String :=
  tokenizeFuel tbl line.length startState line

/-- Modelled from the spec: a caller driving a sequence of tokenization
calls; the engine holds no mutable state across calls beyond what each
call is explicitly passed, so a batch of calls is exactly the list of
per-call results. -/
def runCalls (tbl : List (String × List Rule))
    (calls : List (String × List Char)) : List (List Token × String) :=
  calls.map fun p => tokenize tbl p.2 p.1

/-- Modelled from the spec: load-time check that a state name is defined
by the rule table. -/
def stateDefined (tbl : List (String × List Rule)) (name : String) : Bool :=
  tbl.any fun p => p.1 == name

/-- Modelled from the spec: a rule's optional next-state reference
resolves to a defined state of the table. -/
def ruleRefsOk (tbl : List (String × List Rule)) (r : Rule) : Bool :=
  match r.thenState with
  | none => true
  | some t => stateDefined tbl t

/-- Modelled from the spec: state-graph closure validation of a rule
table, performed eagerly at construction time. -/
def validateStates (tbl : List (String × List Rule)) : Bool :=
  tbl.all fun p => p.2.all (ruleRefsOk tbl)

/-- The `StandardSyntax` engine object owning a validated rule table. -/
structure StandardSyntax where
  stateTable : List (String × List Rule)

/-- Modelled from the spec: `new StandardSyntax(tbl)` — construction
validates the table eagerly and rejects any table with a dangling
next-state reference before any tokenization occurs. -/
def StandardSyntax.new (tbl : List (String × List Rule)) : Option StandardSyntax :=
  if validateStates tbl then some ⟨tbl⟩ else none

/-- `exports.CSSSyntax = new StandardSyntax(states)` (stylesheet.js
line 113). -/
def CSSSyntax : Option StandardSyntax := StandardSyntax.new states

/-- A deliberately broken table whose single rule names an undefined
next state, exercising construction-time rejection. -/
def badTable : List (String × List Rule) :=
  [("start", [⟨regexAnyChar, "plain", some "nowhere"⟩])]

/-! ## Helper lemmas -/

theorem countLeading_le (p : Char → Bool) : ∀ cs : List Char, countLeading p cs ≤ cs.length
  | [] => Nat.le_refl 0
  | c :: cs => by
    simp only [countLeading, List.length_cons]
    split
    · exact Nat.succ_le_succ (countLeading_le p cs)
    · exact Nat.zero_le _

/-- One unfolding step of the scanning loop when a rule matches. -/
theorem tokenizeFuel_cons_some (tbl : List (String × List Rule)) (fuel : Nat)
    (state : String) (c : Char) (rest : List Char) (n : Nat) (tag : String)
    (nxt : Option String)
    (h : matchFirst (lookupState tbl state) (c :: rest) = some (n, tag, nxt)) :
    tokenizeFuel tbl (fuel + 1) state (c :: rest) =
      ((⟨(c :: rest).take (max n 1), tag⟩ : Token) ::
          (tokenizeFuel tbl fuel (nxt.getD state) ((c :: rest).drop (max n 1))).1,
        (tokenizeFuel tbl fuel (nxt.getD state) ((c :: rest).drop (max n 1))).2) := by
  simp only [tokenizeFuel, h]

/-- One unfolding step of the scanning loop when no rule matches. -/
theorem tokenizeFuel_cons_none (tbl : List (String × List Rule)) (fuel : Nat)
    (state : String) (c : Char) (rest : List Char)
    (h : matchFirst (lookupState tbl state) (c :: rest) = none) :
    tokenizeFuel tbl (fuel + 1) state (c :: rest) =
      ((⟨[c], "plain"⟩ : Token) :: (tokenizeFuel tbl fuel state rest).1,
        (tokenizeFuel tbl fuel state rest).2) := by
  simp only [tokenizeFuel, h]

/-- The emitted spans concatenate to the scanned input whenever the fuel
covers the input length. -/
theorem tokenizeFuel_join (tbl : List (String × List Rule)) (fuel : Nat) :
    ∀ (state : String) (cs : List Char), cs.length ≤ fuel →
      ((tokenizeFuel tbl fuel state cs).1.map Token.value).flatten = cs := by
  induction fuel with
  | zero =>
    intro state cs h
    have hnil : cs = [] := List.length_eq_zero.mp (Nat.le_zero.mp h)
    subst hnil
    rfl
  | succ fuel ih =>
    intro state cs h
    cases cs with
    | nil => rfl
    | cons c rest =>
      cases hm : matchFirst (lookupState tbl state) (c :: rest) with
      | none =>
        rw [tokenizeFuel_cons_none tbl fuel state c rest hm]
        simp only [List.map_cons, List.flatten_cons]
        rw [ih state rest (Nat.le_of_succ_le_succ (by simpa using h))]
        rfl
      | some x =>
        obtain ⟨n, tag, nxt⟩ := x
        rw [tokenizeFuel_cons_some tbl fuel state c rest n tag nxt hm]
        simp only [List.map_cons, List.flatten_cons]
        have hlen : ((c :: rest).drop (max n 1)).length ≤ fuel := by
          rw [List.length_drop]
          simp only [List.length_cons] at h ⊢
          omega
        rw [ih (nxt.getD state) ((c :: rest).drop (max n 1)) hlen]
        exact List.take_append_drop _ _

/-! ## Claim theorems -/

/-- C1: for every input line `L` and every valid start state `S` of the
rule table, the spans of `tokenize(L, S)` concatenate, in order, exactly
to `L`, and the token lengths sum to `L.length` — no gaps, no overlaps. -/
theorem coverage_invariant (L : List Char) (S : String)
    (_hS : S = "start" ∨ S = "comment") :
    ((tokenize states L S).1.map Token.value).flatten = L ∧
      ((tokenize states L S).1.map fun t => t.value.length).sum = L.length := by
  have hj : ((tokenize states L S).1.map Token.value).flatten = L :=
    tokenizeFuel_join states L.length S L (Nat.le_refl _)
  refine ⟨hj, ?_⟩
  have hl : ((tokenize states L S).1.map Token.value).flatten.length = L.length := by
    rw [hj]
  rw [List.length_flatten] at hl
  simpa [List.map_map, Function.comp] using hl

/-- Witness for C1 at the concrete line `"a /* start"` and start state
`"start"`. -/
theorem coverage_invariant_witness :
    (("start" : String) = "start" ∨ ("start" : String) = "comment") ∧
      (((tokenize states ("a /* start".toList) "start").1.map Token.value).flatten
          = "a /* start".toList ∧
        ((tokenize states ("a /* start".toList) "start").1.map
            fun t => t.value.length).sum = ("a /* start".toList).length) :=
  ⟨Or.inl rfl, coverage_invariant ("a /* start".toList) "start" (Or.inl rfl)⟩

/-- C2: at any position, rules of the active state are tried strictly in
declared order: if every rule before index `i` fails and rule `i`
matches, the dispatched result is rule `i`'s length, tag and transition —
regardless of whether any later rule (longer-matching or not) would also
match. -/
theorem first_match_wins (rules : List Rule) (cs : List Char) (i : Nat)
    (hi : i < rules.length)
    (hprev : ∀ j, (hj : j < i) → (rules.get ⟨j, Nat.lt_trans hj hi⟩).regex cs = none)
    (n : Nat) (hn : (rules.get ⟨i, hi⟩).regex cs = some n) :
    matchFirst rules cs =
      some (n, (rules.get ⟨i, hi⟩).tag, (rules.get ⟨i, hi⟩).thenState) := by
  induction rules generalizing i with
  | nil => exact absurd hi (Nat.not_lt_zero i)
  | cons r rest ih =>
    cases i with
    | zero =>
      simp only [List.get] at hn ⊢
      simp only [matchFirst, hn]
    | succ i =>
      have h0 : r.regex cs = none := hprev 0 (Nat.succ_pos i)
      simp only [matchFirst, h0]
      exact ih i (Nat.lt_of_succ_lt_succ hi)
        (fun j hj => hprev (j + 1) (Nat.succ_lt_succ hj)) hn

/-- Witness for C2: on input `"*/x"` in the `comment` state, the
second-declared rule (`/^\*\//`, length 2, transition to `start`) and the
third-declared rule (`/^[*\/]/`, length 1) both match; dispatch picks the
earlier-declared one. -/
theorem first_match_wins_witness :
    (commentRules.get ⟨2, by decide⟩).regex ("*/x".toList) = some 1 ∧
      matchFirst commentRules ("*/x".toList) = some (2, "comment", some "start") := by
  constructor
  · decide
  · exact first_match_wins commentRules ("*/x".toList) 1 (by decide)
      (by
        intro j hj
        have hj0 : j = 0 := by omega
        subst hj0
        exact rfl)
      2 (by decide)

/-- C3: tokenizing `"a /* start"` from state `start` yields a keyword
token for `a`, a comment-open token for `/*` and a comment token for
`" start"`, ending in state `comment`; then tokenizing `"more */ b"`
from state `comment` yields comment tokens up to and including `*/`
followed by tokens produced in state `start` for `" b"`, ending in state
`start`. -/
theorem multiline_comment_example :
    tokenize states ("a /* start".toList) "start" =
      ([⟨"a".toList, "keyword"⟩, ⟨" ".toList, "plain"⟩, ⟨"/*".toList, "comment"⟩,
        ⟨" start".toList, "comment"⟩], "comment") ∧
      tokenize states ("more */ b".toList) "comment" =
        ([⟨"more ".toList, "comment"⟩, ⟨"*/".toList, "comment"⟩, ⟨" ".toList, "plain"⟩,
          ⟨"b".toList, "keyword"⟩], "start") := by
  constructor <;> decide

/-- C4: when no rule of the active state matches, the engine does not
fail: it consumes exactly one character, emits it as a fallback-tagged
token, and continues scanning the remainder; the empty line tokenizes to
no tokens with the state unchanged, so tokenization completes on every
input. -/
theorem no_match_fallback (tbl : List (String × List Rule)) (state : String)
    (c : Char) (rest : List Char)
    (h : matchFirst (lookupState tbl state) (c :: rest) = none) :
    tokenize tbl (c :: rest) state =
      ((⟨[c], "plain"⟩ : Token) :: (tokenize tbl rest state).1,
        (tokenize tbl rest state).2) ∧
      tokenize tbl [] state = ([], state) := by
  refine ⟨?_, rfl⟩
  simp only [tokenize, List.length_cons]
  exact tokenizeFuel_cons_none tbl rest.length state c rest h

/-- Witness for C4: in state `start`, no rule matches at a line-feed
character (even the catch-all `/^./` excludes line terminators), and the
engine emits it as a one-character fallback token. -/
theorem no_match_fallback_witness :
    matchFirst (lookupState states "start") ('\n' :: "x".toList) = none ∧
      (tokenize states ('\n' :: "x".toList) "start" =
        ((⟨['\n'], "plain"⟩ : Token) :: (tokenize states ("x".toList) "start").1,
          (tokenize states ("x".toList) "start").2) ∧
        tokenize states [] "start" = ([], "start")) :=
  ⟨by decide, no_match_fallback states "start" '\n' ("x".toList) (by decide)⟩

/-- The number of emitted tokens never exceeds the scanned length. -/
theorem tokenizeFuel_count (tbl : List (String × List Rule)) (fuel : Nat) :
    ∀ (state : String) (cs : List Char),
      (tokenizeFuel tbl fuel state cs).1.length ≤ cs.length := by
  induction fuel with
  | zero =>
    intro state cs
    cases cs with
    | nil => exact Nat.le_refl 0
    | cons c rest => exact Nat.zero_le _
  | succ fuel ih =>
    intro state cs
    cases cs with
    | nil => exact Nat.le_refl 0
    | cons c rest =>
      cases hm : matchFirst (lookupState tbl state) (c :: rest) with
      | none =>
        rw [tokenizeFuel_cons_none tbl fuel state c rest hm]
        simpa using Nat.succ_le_succ (ih state rest)
      | some x =>
        obtain ⟨n, tag, nxt⟩ := x
        rw [tokenizeFuel_cons_some tbl fuel state c rest n tag nxt hm]
        have h1 := ih (nxt.getD state) ((c :: rest).drop (max n 1))
        simp only [List.length_cons, List.length_drop] at h1 ⊢
        omega

/-- Every emitted token covers at least one character: each scanning
step, fallback and guarded zero-length match included, advances the
cursor. -/
theorem tokenizeFuel_pos (tbl : List (String × List Rule)) (fuel : Nat) :
    ∀ (state : String) (cs : List Char) (t : Token),
      t ∈ (tokenizeFuel tbl fuel state cs).1 → 1 ≤ t.value.length := by
  induction fuel with
  | zero =>
    intro state cs t ht
    cases cs with
    | nil => exact absurd ht (List.not_mem_nil t)
    | cons c rest => exact absurd ht (List.not_mem_nil t)
  | succ fuel ih =>
    intro state cs t ht
    cases cs with
    | nil => exact absurd ht (List.not_mem_nil t)
    | cons c rest =>
      cases hm : matchFirst (lookupState tbl state) (c :: rest) with
      | none =>
        rw [tokenizeFuel_cons_none tbl fuel state c rest hm] at ht
        rcases List.mem_cons.mp ht with rfl | hmem
        · exact Nat.le_refl 1
        · exact ih state rest t hmem
      | some x =>
        obtain ⟨n, tag, nxt⟩ := x
        rw [tokenizeFuel_cons_some tbl fuel state c rest n tag nxt hm] at ht
        rcases List.mem_cons.mp ht with rfl | hmem
        · simp only [List.length_take, List.length_cons]
          omega
        · exact ih (nxt.getD state) ((c :: rest).drop (max n 1)) t hmem

/-- C5: tokenizing any finite line terminates — `tokenize` is a total
function — taking at most `L.length` matching steps (one per emitted
token), because every step, fallback steps and guarded zero-length
matches included, consumes at least one character; in particular the
empty line and lines matched by no specific rule are covered. -/
theorem termination_bound (tbl : List (String × List Rule)) (L : List Char)
    (S : String) :
    (tokenize tbl L S).1.length ≤ L.length ∧
      ∀ t ∈ (tokenize tbl L S).1, 1 ≤ t.value.length :=
  ⟨tokenizeFuel_count tbl L.length S L, fun t ht => tokenizeFuel_pos tbl L.length S L t ht⟩

/-- Witness for C5 on the concrete line `"a"` from state `start`: one
step, whose emitted token covers one character. -/
theorem termination_bound_witness :
    (tokenize states ("a".toList) "start").1.length ≤ ("a".toList).length ∧
      1 ≤ (Token.mk ("a".toList) "keyword").value.length :=
  ⟨(termination_bound states ("a".toList) "start").1,
    (termination_bound states ("a".toList) "start").2 ⟨"a".toList, "keyword"⟩ (by decide)⟩

/-- C6: `tokenize` is deterministic and stateless across calls — in any
two batches of calls, each containing the pair `(S, L)` at some position,
the result at that position is the same, namely `tokenize(L, S)`:
nothing before or after a call (other lines, other states) influences
its outcome. -/
theorem deterministic_stateless (tbl : List (String × List Rule)) (S : String)
    (L : List Char) (pre₁ post₁ pre₂ post₂ : List (String × List Char)) :
    (runCalls tbl (pre₁ ++ (S, L) :: post₁))[pre₁.length]? = some (tokenize tbl L S) ∧
      (runCalls tbl (pre₁ ++ (S, L) :: post₁))[pre₁.length]? =
        (runCalls tbl (pre₂ ++ (S, L) :: post₂))[pre₂.length]? := by
  have key : ∀ (pre post : List (String × List Char)),
      (runCalls tbl (pre ++ (S, L) :: post))[pre.length]? = some (tokenize tbl L S) := by
    intro pre post
    have hsplit : runCalls tbl (pre ++ (S, L) :: post) =
        runCalls tbl pre ++ tokenize tbl L S :: runCalls tbl post := by
      simp [runCalls]
    rw [hsplit, List.getElem?_append_right (by simp [runCalls])]
    simp [runCalls]
  exact ⟨key pre₁ post₁, (key pre₁ post₁).trans (key pre₂ post₂).symm⟩

/-- C7: a rule table in which some rule's next-state reference names an
undefined state is rejected at construction time, before any
tokenization; the CSS table's two references (`comment` and `start`)
both resolve, so `new StandardSyntax(states)` succeeds. -/
theorem state_graph_closure :
    (∀ (tbl : List (String × List Rule)) (s : String) (rules : List Rule)
        (r : Rule) (t : String),
      (s, rules) ∈ tbl → r ∈ rules → r.thenState = some t →
      stateDefined tbl t = false → StandardSyntax.new tbl = none) ∧
      CSSSyntax = some ⟨states⟩ := by
  refine ⟨?_, rfl⟩
  intro tbl s rules r t hmem hr ht hundef
  cases hval : validateStates tbl with
  | false => simp [StandardSyntax.new, hval]
  | true =>
    exfalso
    simp only [validateStates, List.all_eq_true] at hval
    have h1 := hval (s, rules) hmem
    simp only [List.all_eq_true] at h1
    have h2 := h1 r hr
    rw [ruleRefsOk, ht] at h2
    have h3 : stateDefined tbl t = true := h2
    rw [h3] at hundef
    exact Bool.noConfusion hundef

/-- Witness for C7: `badTable` has a rule whose `then` state `nowhere`
is undefined, and its construction is rejected. -/
theorem state_graph_closure_witness :
    stateDefined badTable "nowhere" = false ∧ StandardSyntax.new badTable = none :=
  ⟨rfl,
    state_graph_closure.1 badTable "start" [⟨regexAnyChar, "plain", some "nowhere"⟩]
      ⟨regexAnyChar, "plain", some "nowhere"⟩ "nowhere"
      (by simp [badTable]) (List.mem_singleton.mpr rfl) rfl rfl⟩

/-! ## Per-regex match-length bounds

For each of the ten source regexes: any successful match consumes at
least one character (no rule matches the empty prefix) and at most the
remaining input (patterns are anchored prefixes of the remaining input).
-/

theorem regexKeyword_bounds (cs : List Char) (n : Nat)
    (h : regexKeyword cs = some n) : 1 ≤ n ∧ n ≤ cs.length := by
  simp only [regexKeyword] at h
  split at h
  · exact absurd h (by simp)
  · rename_i hk
    have hle := countLeading_le isWordChar cs
    split at h
    · cases h
      omega
    · split at h
      · exact absurd h (by simp)
      · cases h
        omega

theorem regexId_bounds (cs : List Char) (n : Nat)
    (h : regexId cs = some n) : 1 ≤ n ∧ n ≤ cs.length := by
  cases cs with
  | nil => exact absurd h (by simp [regexId])
  | cons a rest =>
    simp only [regexId] at h
    split at h
    · cases h
      have := countLeading_le Char.isAlpha rest
      simp only [List.length_cons]
      omega
    · exact absurd h (by simp)

theorem regexClassSel_bounds (cs : List Char) (n : Nat)
    (h : regexClassSel cs = some n) : 1 ≤ n ∧ n ≤ cs.length := by
  cases cs with
  | nil => exact absurd h (by simp [regexClassSel])
  | cons a rest =>
    simp only [regexClassSel] at h
    split at h
    · cases h
      have := countLeading_le Char.isAlpha rest
      simp only [List.length_cons]
      omega
    · exact absurd h (by simp)

theorem regexDirective_bounds (cs : List Char) (n : Nat)
    (h : regexDirective cs = some n) : 1 ≤ n ∧ n ≤ cs.length := by
  simp only [regexDirective] at h
  split at h
  · rename_i c cs' hdrop
    split at h
    · cases h
      have hlt : countLeading (fun c => c.isAlpha || c == '-') cs < cs.length := by
        by_contra hge
        have : cs.drop (countLeading (fun c => c.isAlpha || c == '-') cs) = [] :=
          List.drop_eq_nil_of_le (by omega)
        rw [this] at hdrop
        exact List.noConfusion hdrop
      omega
    · exact absurd h (by simp)
  · exact absurd h (by simp)

theorem regexLineComment_bounds (cs : List Char) (n : Nat)
    (h : regexLineComment cs = some n) : 1 ≤ n ∧ n ≤ cs.length := by
  cases cs with
  | nil => exact absurd h (by simp [regexLineComment])
  | cons a rest =>
    cases rest with
    | nil => exact absurd h (by simp [regexLineComment])
    | cons b rest' =>
      simp only [regexLineComment] at h
      split at h
      · cases h
        have := countLeading_le (fun c => !isLineTerminator c) rest'
        simp only [List.length_cons]
        omega
      · exact absurd h (by simp)

theorem regexCommentOpen_bounds (cs : List Char) (n : Nat)
    (h : regexCommentOpen cs = some n) : 1 ≤ n ∧ n ≤ cs.length := by
  cases cs with
  | nil => exact absurd h (by simp [regexCommentOpen])
  | cons a rest =>
    cases rest with
    | nil => exact absurd h (by simp [regexCommentOpen])
    | cons b rest' =>
      simp only [regexCommentOpen] at h
      split at h
      · cases h
        simp only [List.length_cons]
        omega
      · exact absurd h (by simp)

theorem regexAnyChar_bounds (cs : List Char) (n : Nat)
    (h : regexAnyChar cs = some n) : 1 ≤ n ∧ n ≤ cs.length := by
  cases cs with
  | nil => exact absurd h (by simp [regexAnyChar])
  | cons a rest =>
    simp only [regexAnyChar] at h
    split at h
    · exact absurd h (by simp)
    · cases h
      simp only [List.length_cons]
      omega

theorem regexCommentBody_bounds (cs : List Char) (n : Nat)
    (h : regexCommentBody cs = some n) : 1 ≤ n ∧ n ≤ cs.length := by
  simp only [regexCommentBody] at h
  split at h
  · exact absurd h (by simp)
  · cases h
    have := countLeading_le (fun c => !(c == '*') && !(c == '/')) cs
    omega

theorem regexCommentClose_bounds (cs : List Char) (n : Nat)
    (h : regexCommentClose cs = some n) : 1 ≤ n ∧ n ≤ cs.length := by
  cases cs with
  | nil => exact absurd h (by simp [regexCommentClose])
  | cons a rest =>
    cases rest with
    | nil => exact absurd h (by simp [regexCommentClose])
    | cons b rest' =>
      simp only [regexCommentClose] at h
      split at h
      · cases h
        simp only [List.length_cons]
        omega
      · exact absurd h (by simp)

theorem regexStarSlash_bounds (cs : List Char) (n : Nat)
    (h : regexStarSlash cs = some n) : 1 ≤ n ∧ n ≤ cs.length := by
  cases cs with
  | nil => exact absurd h (by simp [regexStarSlash])
  | cons a rest =>
    simp only [regexStarSlash] at h
    split at h
    · cases h
      simp only [List.length_cons]
      omega
    · exact absurd h (by simp)

/-- Any rule of the CSS table: a successful match consumes between one
character and the whole remaining input. -/
theorem states_rule_bounds (s : String) (rules : List Rule)
    (hmem : (s, rules) ∈ states) (r : Rule) (hr : r ∈ rules)
    (cs : List Char) (n : Nat) (h : r.regex cs = some n) :
    1 ≤ n ∧ n ≤ cs.length := by
  simp only [states, List.mem_cons, List.not_mem_nil, or_false] at hmem
  rcases hmem with h₁ | h₂
  · cases h₁
    simp only [startRules, List.mem_cons, List.not_mem_nil, or_false] at hr
    rcases hr with rfl | rfl | rfl | rfl | rfl | rfl | rfl
    · exact regexKeyword_bounds cs n h
    · exact regexId_bounds cs n h
    · exact regexClassSel_bounds cs n h
    · exact regexDirective_bounds cs n h
    · exact regexLineComment_bounds cs n h
    · exact regexCommentOpen_bounds cs n h
    · exact regexAnyChar_bounds cs n h
  · cases h₂
    simp only [commentRules, List.mem_cons, List.not_mem_nil, or_false] at hr
    rcases hr with rfl | rfl | rfl
    · exact regexCommentBody_bounds cs n h
    · exact regexCommentClose_bounds cs n h
    · exact regexStarSlash_bounds cs n h

/-- C8: every rule of the table is anchored — a successful match
consumes a prefix of the remaining input at the cursor (at most the
remaining length, at least one character), never an occurrence found
later in the line: `/^\/\*/ ` fails on `"x/*"` even though `/*` occurs
at position 1. -/
theorem anchored_prefix_match :
    (∀ (s : String) (rules : List Rule), (s, rules) ∈ states →
      ∀ r ∈ rules, ∀ (cs : List Char) (n : Nat),
        r.regex cs = some n → n ≤ cs.length) ∧
      regexCommentOpen ("x/*".toList) = none := by
  refine ⟨?_, by decide⟩
  intro s rules hmem r hr cs n h
  exact (states_rule_bounds s rules hmem r hr cs n h).2

/-- Witness for C8: the `comment` state's `/^[*\/]/` rule matches one
character on `"*"`, within the remaining length. -/
theorem anchored_prefix_match_witness :
    (Rule.mk regexStarSlash "comment" none).regex ("*".toList) = some 1 ∧
      (1 : Nat) ≤ ("*".toList).length :=
  ⟨by decide,
    anchored_prefix_match.1 "comment" commentRules
      (by simp [states]) ⟨regexStarSlash, "comment", none⟩
      (by simp [commentRules]) ("*".toList) 1 (by decide)⟩

/-- C9: the three rules of the `comment` state are jointly total over
non-empty input: whatever the first remaining character is, one of
`/^[^*\/]+/`, `/^\*\//`, `/^[*\/]/` matches, the dispatched tag is
always `comment`, and the engine's no-match fallback branch is
unreachable in state `comment`. -/
theorem comment_state_total (c : Char) (rest : List Char) :
    ∃ (n : Nat) (nxt : Option String),
      matchFirst commentRules (c :: rest) = some (n, "comment", nxt) := by
  by_cases hstar : c = '*'
  · subst hstar
    cases rest with
    | nil => exact ⟨1, none, by decide⟩
    | cons d rest' =>
      by_cases hd : d = '/'
      · subst hd
        refine ⟨2, some "start", ?_⟩
        simp [commentRules, matchFirst, regexCommentBody, regexCommentClose,
          countLeading]
      · refine ⟨1, none, ?_⟩
        simp [commentRules, matchFirst, regexCommentBody, regexCommentClose,
          regexStarSlash, countLeading, hd]
  · by_cases hslash : c = '/'
    · subst hslash
      cases rest with
      | nil => exact ⟨1, none, by decide⟩
      | cons d rest' =>
        refine ⟨1, none, ?_⟩
        simp [commentRules, matchFirst, regexCommentBody, regexCommentClose,
          regexStarSlash, countLeading]
    · refine ⟨countLeading (fun x => !(x == '*') && !(x == '/')) (c :: rest), none, ?_⟩
      have h1 : (c == '*') = false := beq_eq_false_iff_ne.mpr hstar
      have h2 : (c == '/') = false := beq_eq_false_iff_ne.mpr hslash
      simp [commentRules, matchFirst, regexCommentBody, countLeading, h1, h2]

/-- C10: no rule of the table can match a zero-length prefix — every
successful match of any of the ten regexes consumes at least one
character, so every matching step strictly advances the cursor and the
engine's empty-match guard is never triggered on this table. -/
theorem no_zero_length_match :
    ∀ (s : String) (rules : List Rule), (s, rules) ∈ states →
      ∀ r ∈ rules, ∀ (cs : List Char) (n : Nat),
        r.regex cs = some n → 1 ≤ n := by
  intro s rules hmem r hr cs n h
  exact (states_rule_bounds s rules hmem r hr cs n h).1

/-- Witness for C10: the `start` state's catch-all `/^./` consumes one
character on `"x"`. -/
theorem no_zero_length_match_witness :
    (Rule.mk regexAnyChar "plain" none).regex ("x".toList) = some 1 ∧ (1 : Nat) ≤ 1 :=
  ⟨by decide,
    no_zero_length_match "start" startRules (by simp [states])
      ⟨regexAnyChar, "plain", none⟩ (by simp [startRules]) ("x".toList) 1 (by decide)⟩

end Bespin
